import Mathlib

/-
Verification of the snapfire probe collector pipeline
(src/provision/probe/collector.py) by shallow embedding.

Time values (perf_counter and loop.time readings, intervals, timeouts)
are modelled as rationals.  Probe status strings and reason strings are
modelled as Lean strings, exactly as the source produces them.
-/

namespace Snapfire

/-- Outcome of awaiting the inner probe coroutine inside the
measure_latency wrapper (collector.py lines 65-74): the await either
returns normally, raises TimeoutError, or raises some other Exception
carrying a message (str of the exception). -/
inductive ProbeOutcome where
  | ok : ProbeOutcome
  | timedOut : ProbeOutcome
  | failed : String → ProbeOutcome
deriving DecidableEq, Repr

/-- Embedding of the measure_latency decorator body (collector.py lines
60-76).  tStart and tEnd are the two time.perf_counter readings taken at
lines 66 and 74; the wrapped call result is the triple
(duration_ms, status, reason).  The Lean function is total: every branch
of the source returns a triple, which is the "never raises past this
boundary" behaviour of the wrapper for Exception-class failures. -/
def measure_latency (outcome : ProbeOutcome) (tStart tEnd : ℚ) :
    Option ℚ × String × Option String :=
  match outcome with
  | .timedOut => (none, "error", some "timeout")
  | .failed msg => (none, "error", some msg)
  | .ok => (some ((tEnd - tStart) * 1000), "success", none)

/-- Network events observable by one run_udp invocation (collector.py
lines 94-120): either some datagram reply arrives within the timeout
(datagram_received resolves the future), or a transport error is
delivered (error_received sets an exception on the future, re-raised by
asyncio.wait_for), or nothing arrives within the timeout (asyncio.wait_for
raises TimeoutError). -/
inductive UdpNet where
  | reply : UdpNet
  | errorReceived : String → UdpNet
  | noReply : UdpNet
deriving DecidableEq, Repr

/-- Embedding of the undecorated run_udp body (collector.py lines 95-120)
as the outcome it delivers to the measure_latency wrapper. -/
def run_udp (net : UdpNet) : ProbeOutcome :=
  match net with
  | .reply => .ok
  | .errorReceived msg => .failed msg
  | .noReply => .timedOut

/-- The decorated run_udp runner: measure_latency applied to the body
outcome (collector.py lines 94-95 apply the decorator). -/
def udp_probe (net : UdpNet) (tStart tEnd : ℚ) :
    Option ℚ × String × Option String :=
  measure_latency (run_udp net) tStart tEnd

end Snapfire

namespace Snapfire

/-- C2: runner result contract of the measure_latency wrapper
(collector.py lines 60-76).  Under monotonicity of perf_counter
(tStart is less than or equal to tEnd), timeout expiry yields
(none, error, timeout); any other failure yields (none, error, message);
normal completion yields a nonnegative duration with status success and
no reason.  Status is success iff duration_ms is present iff reason is
absent. -/
theorem measure_latency_contract (outcome : ProbeOutcome) (tStart tEnd : ℚ)
    (hmono : tStart ≤ tEnd) :
    ((measure_latency outcome tStart tEnd).2.1 = "success" ↔
      (measure_latency outcome tStart tEnd).1 ≠ none) ∧
    ((measure_latency outcome tStart tEnd).2.1 = "success" ↔
      (measure_latency outcome tStart tEnd).2.2 = none) ∧
    (outcome = .timedOut →
      measure_latency outcome tStart tEnd = (none, "error", some "timeout")) ∧
    (∀ msg, outcome = .failed msg →
      measure_latency outcome tStart tEnd = (none, "error", some msg)) ∧
    (outcome = .ok →
      ∃ d, measure_latency outcome tStart tEnd = (some d, "success", none) ∧
        0 ≤ d) := by
  cases outcome with
  | ok =>
      refine ⟨by simp [measure_latency], by simp [measure_latency], ?_, ?_, ?_⟩
      · intro h; cases h
      · intro msg h; cases h
      · intro _
        refine ⟨(tEnd - tStart) * 1000, rfl, ?_⟩
        have h : 0 ≤ tEnd - tStart := by linarith
        positivity
  | timedOut =>
      refine ⟨by simp [measure_latency], by simp [measure_latency], ?_, ?_, ?_⟩
      · intro _; rfl
      · intro msg h; cases h
      · intro h; cases h
  | failed msg =>
      refine ⟨by simp [measure_latency], by simp [measure_latency], ?_, ?_, ?_⟩
      · intro h; cases h
      · intro m h; cases h; rfl
      · intro h; cases h

/-- Witness for measure_latency_contract at outcome ok with
tStart = 1 and tEnd = 3. -/
theorem measure_latency_contract_witness :
    (1 : ℚ) ≤ 3 ∧
    ((measure_latency .ok 1 3).2.1 = "success" ↔
      (measure_latency .ok 1 3).1 ≠ none) := by
  exact ⟨by norm_num, (measure_latency_contract .ok 1 3 (by norm_num)).1⟩

/-- C8: a UDP probe in which no datagram reply arrives within the
configured timeout resolves, for every pair of clock readings, to the
single fixed timeout-error outcome (none, error, timeout) and never to
a success outcome (collector.py lines 94-120 and 60-76). -/
theorem udp_noreply_timeout (tStart tEnd : ℚ) :
    udp_probe .noReply tStart tEnd = (none, "error", some "timeout") ∧
    (udp_probe .noReply tStart tEnd).2.1 ≠ "success" := by
  refine ⟨rfl, ?_⟩
  simp [udp_probe, run_udp, measure_latency]

end Snapfire

namespace Snapfire

/-- Embedding of the scheduler timing recurrence
(collector.py lines 206-236).  State is the pair (now, nextTick) of
loop.time and the absolute next_tick variable; each list element is the
duration the tick body takes (probe plus bookkeeping).  Per iteration the
source advances next_tick by interval (line 214) and then sleeps
max(0, next_tick - loop.time()) (line 236); the returned list holds the
wake instants, one per tick. -/
def schedWakes (interval : ℚ) (now nextTick : ℚ) : List ℚ → List ℚ
  | [] => []
  | d :: ds =>
      let nt := nextTick + interval
      let afterProbe := now + d
      let wake := afterProbe + max 0 (nt - afterProbe)
      wake :: schedWakes interval wake nt ds

lemma schedWakes_aligned (interval : ℚ) (ds : List ℚ)
    (hd : ∀ d ∈ ds, d ≤ interval) :
    ∀ start : ℚ, schedWakes interval start start ds =
      (List.range ds.length).map (fun k : ℕ => start + ((k : ℚ) + 1) * interval) := by
  induction ds with
  | nil => intro start; simp [schedWakes]
  | cons d ds ih =>
      intro start
      have hdle : d ≤ interval := hd d (by simp)
      have hrest : ∀ x ∈ ds, x ≤ interval := fun x hx => hd x (by simp [hx])
      have hwake : (start + d) + max 0 ((start + interval) - (start + d)) =
          start + interval := by
        have h0 : (0 : ℚ) ≤ (start + interval) - (start + d) := by linarith
        rw [max_eq_right h0]; ring
      have hrec := ih hrest (start + interval)
      simp only [schedWakes, List.length_cons, hwake]
      rw [hrec, List.range_succ_eq_map, List.map_cons, List.map_map]
      congr 1
      · push_cast; ring
      · apply List.map_congr_left
        intro k _
        simp only [Function.comp_apply]
        push_cast; ring

end Snapfire

namespace Snapfire

/-- C5: drift-free absolute next-tick scheduling (collector.py lines
206-236).  Starting aligned (now = nextTick = start), if every tick body
duration is nonnegative and below the interval, then over any n ticks
(n at least 10) the k-th wake instant is exactly start + (k+1) * interval:
the wake times stay on the fixed grid with no cumulative drift from probe
execution time. -/
theorem scheduler_grid_alignment (interval start : ℚ) (ds : List ℚ)
    (hdur : ∀ d ∈ ds, 0 ≤ d ∧ d < interval) (_hlen : 10 ≤ ds.length) :
    schedWakes interval start start ds =
      (List.range ds.length).map (fun k : ℕ => start + ((k : ℚ) + 1) * interval) :=
  schedWakes_aligned interval ds (fun d hd => le_of_lt (hdur d hd).2) start

/-- Witness for scheduler_grid_alignment: interval 1, start 0, ten ticks
each taking 1/2. -/
theorem scheduler_grid_alignment_witness :
    (∀ d ∈ List.replicate 10 ((1 : ℚ)/2), 0 ≤ d ∧ d < 1) ∧
    10 ≤ (List.replicate 10 ((1 : ℚ)/2)).length ∧
    schedWakes 1 0 0 (List.replicate 10 ((1 : ℚ)/2)) =
      (List.range (List.replicate 10 ((1 : ℚ)/2)).length).map
        (fun k : ℕ => 0 + ((k : ℚ) + 1) * 1) := by
  refine ⟨?_, by simp, ?_⟩
  · intro d hd
    rw [List.eq_of_mem_replicate hd]; norm_num
  · exact scheduler_grid_alignment 1 0 (List.replicate 10 ((1 : ℚ)/2))
      (fun d hd => by rw [List.eq_of_mem_replicate hd]; norm_num) (by simp)

end Snapfire

namespace Snapfire

/-- Result record built by collect (collector.py lines 183-190).  The
protocol field drives queue and buffer routing; seq abstracts the rest of
the JSON payload (timestamp, target, duration_ms, status, reason), which
no queue or writer decision inspects. -/
structure Record where
  protocol : String
  seq : Nat
deriving DecidableEq, Repr

/-- Outcome of one awaited asyncio.wait_for(collect(...), timeout + 0.5)
call inside the scheduler loop (collector.py lines 219-229): collect ran
to completion and enqueued its record, or the outer deadline fired and
wait_for raised TimeoutError with the tick dropped before the enqueue, or
some other exception was raised out of the awaited call. -/
inductive CollectOutcome where
  | done : Record → CollectOutcome
  | outerTimeout : CollectOutcome
  | raised : String → CollectOutcome
deriving DecidableEq, Repr

/-- The hard outer deadline passed to asyncio.wait_for (collector.py
lines 226-228): the runner timeout plus 0.5 seconds. -/
def outer_deadline (timeout : ℚ) : ℚ := timeout + 1/2

/-- Raising semantics of the awaited wait_for call (collector.py lines
219-229): on completion the record is appended to this protocol queue
(line 191); on outer-deadline expiry or any other exception the queue is
untouched and the exception propagates. -/
def tick_attempt (queue : List Record) (out : CollectOutcome) :
    Except String (List Record) :=
  match out with
  | .done r => .ok (queue ++ [r])
  | .outerTimeout => .error "TimeoutError"
  | .raised msg => .error msg

/-- The try/except Exception: pass guard around the awaited call
(collector.py lines 216-231): any exception is swallowed and the loop
body continues with the queue unchanged. -/
def tick_guarded (queue : List Record) (out : CollectOutcome) : List Record :=
  match tick_attempt queue out with
  | .ok q => q
  | .error _ => queue

/-- The scheduler while-loop (collector.py lines 213-236) run over a
finite sequence of tick outcomes, accumulating the protocol queue. -/
def scheduler_loop (queue : List Record) : List CollectOutcome → List Record
  | [] => queue
  | out :: rest => scheduler_loop (tick_guarded queue out) rest

/-- The record a tick contributes to the queue, if any. -/
def tickRecord : CollectOutcome → Option Record
  | .done r => some r
  | _ => none

lemma scheduler_loop_append (queue : List Record)
    (outs : List CollectOutcome) :
    scheduler_loop queue outs = queue ++ outs.filterMap tickRecord := by
  induction outs generalizing queue with
  | nil => simp [scheduler_loop]
  | cons out rest ih =>
      cases out <;>
        simp [scheduler_loop, tick_guarded, tick_attempt, tickRecord, ih]

end Snapfire

namespace Snapfire

/-- C6: outer deadline behaviour (collector.py lines 216-236).  The
wait_for deadline equals timeout + 0.5 and is strictly larger than the
runner timeout (hence distinct); a tick on which the outer deadline fires
leaves the queue unchanged (no record enqueued); and the scheduler loop
processes every tick outcome in the sequence, the queue gaining exactly
the records of completed ticks: no exception escaping the wrapped call
terminates the loop. -/
theorem outer_deadline_tick (timeout : ℚ) (queue : List Record)
    (outs : List CollectOutcome) :
    outer_deadline timeout = timeout + 1/2 ∧
    timeout < outer_deadline timeout ∧
    tick_guarded queue .outerTimeout = queue ∧
    scheduler_loop queue outs = queue ++ outs.filterMap tickRecord := by
  refine ⟨rfl, ?_, rfl, scheduler_loop_append queue outs⟩
  simp only [outer_deadline]
  linarith

end Snapfire

namespace Snapfire

/-- Python runtime value relevant to the scheduler configuration: the
defaults are floats (collector.py lines 138-155) while CLI overrides are
strings (lines 414-418, 486). -/
inductive PyVal where
  | pfloat : ℚ → PyVal
  | pstr : String → PyVal
deriving DecidableEq, Repr

/-- Python addition on such values: float plus float adds, str plus str
concatenates, and any mixed combination raises TypeError. -/
def pyAdd : PyVal → PyVal → Except String PyVal
  | .pfloat a, .pfloat b => .ok (.pfloat (a + b))
  | .pstr a, .pstr b => .ok (.pstr (a ++ b))
  | _, _ => .error "TypeError"

/-- Embedding of parse_argument_keyval (collector.py lines 414-418): an
argument without an equals sign is rejected, otherwise it is split on
the first equals sign into a string key and a string value, with no
numeric conversion. -/
def parse_argument_keyval (value : String) : Except String (String × String) :=
  if value.data.contains '=' then
    let parts := value.splitOn "="
    .ok (parts.headD "", String.intercalate "=" parts.tail)
  else
    .error "ArgumentTypeError"

/-- Lookup in a Python dict built by repeated assignment, where a later
assignment to the same key overwrites an earlier one. -/
def lookupLast (key : String) : List (String × String) → Option String
  | [] => none
  | (k, v) :: rest =>
      match lookupLast key rest with
      | some r => some r
      | none => if k = key then some v else none

/-- Embedding of the regex match at collector.py line 305: the search of
pattern proto then one of dash or underscore then a nonempty remainder,
anchored on both sides, returning the captured config_key. -/
def matchProtoKey (proto key : String) : Option String :=
  if ((proto ++ "_").data.isPrefixOf key.data ∨
      (proto ++ "-").data.isPrefixOf key.data) ∧
      proto.length + 1 < key.length then
    some (key.drop (proto.length + 1))
  else
    none

/-- Embedding of the per-protocol argument extraction loop (collector.py
lines 302-309): configuration items whose key matches the protocol
prefix are collected, keeping the string value as-is. -/
def protoArguments (proto : String)
    (configuration : List (String × String)) : List (String × String) :=
  configuration.foldl (fun acc kv =>
    match matchProtoKey proto kv.1 with
    | some ck => acc ++ [(ck, kv.2)]
    | none => acc) []

/-- Per-protocol scheduler configuration entry (collector.py lines
138-155); fields hold Python values since overrides may replace the
float defaults with strings. -/
structure SchedCfg where
  interval : PyVal
  timeout : PyVal
deriving DecidableEq, Repr

/-- PROTOCOL_DEFAULT_SCHEDULERS_CONFIGURATIONS (collector.py lines
138-155): icmp has interval 2.0, every other protocol interval 5.0, and
all four have timeout 2.0. -/
def defaultScheduler (proto : String) : SchedCfg :=
  if proto = "icmp" then ⟨.pfloat 2, .pfloat 2⟩ else ⟨.pfloat 5, .pfloat 2⟩

/-- Embedding of the scheduler-configuration merge (collector.py lines
312-318): a timeout or interval key found among the protocol arguments
replaces the default with the raw string value. -/
def mergeScheduler (proto : String)
    (configuration : List (String × String)) : SchedCfg :=
  let onArgs := protoArguments proto configuration
  let c0 := defaultScheduler proto
  let c1 :=
    match lookupLast "timeout" onArgs with
    | some v => { c0 with timeout := .pstr v }
    | none => c0
  match lookupLast "interval" onArgs with
  | some v => { c1 with interval := .pstr v }
  | none => c1

/-- Dynamic-type view of one scheduler loop iteration (collector.py
lines 213-236).  First next_tick += interval runs outside the try block:
a TypeError there escapes and terminates the task (Except.error).  Then
inside the try block the wait_for argument timeout + 0.5 is evaluated; a
TypeError there is swallowed by except Exception: pass, so the tick
completes without ever reaching the wrapped collect invocation (the
returned Bool records whether the invocation, and hence any enqueue, was
reached). -/
def tickTyped (nextTick interval timeout : PyVal) :
    Except String (PyVal × Bool) :=
  match pyAdd nextTick interval with
  | .error e => .error e
  | .ok nt =>
      match pyAdd timeout (.pfloat (1/2)) with
      | .error _ => .ok (nt, false)
      | .ok _ => .ok (nt, true)

/-- The scheduler loop run for a number of ticks under the dynamic-type
view, counting the ticks on which the wrapped collect invocation was
reached; the first uncaught exception terminates the task. -/
def schedulerTicks (interval timeout : PyVal) :
    Nat → PyVal → Except String (PyVal × Nat)
  | 0, nt => .ok (nt, 0)
  | n + 1, nt =>
      match tickTyped nt interval timeout with
      | .error e => .error e
      | .ok (nt2, reached) =>
          match schedulerTicks interval timeout n nt2 with
          | .error e => .error e
          | .ok (ntf, c) => .ok (ntf, (if reached then 1 else 0) + c)

lemma mergeScheduler_timeout_override (proto key v : String)
    (h : matchProtoKey proto key = some "timeout") :
    (mergeScheduler proto [(key, v)]).timeout = .pstr v := by
  simp [mergeScheduler, protoArguments, lookupLast, h]

lemma mergeScheduler_interval_override (proto key v : String)
    (h : matchProtoKey proto key = some "interval") :
    (mergeScheduler proto [(key, v)]).interval = .pstr v := by
  simp [mergeScheduler, protoArguments, lookupLast, h]

lemma schedulerTicks_str_timeout (i : ℚ) (s : String) :
    ∀ (n : ℕ) (x : ℚ),
      schedulerTicks (.pfloat i) (.pstr s) n (.pfloat x) =
        .ok (.pfloat (x + n * i), 0) := by
  intro n
  induction n with
  | zero => intro x; simp [schedulerTicks]
  | succ m ih =>
      intro x
      simp only [schedulerTicks, tickTyped, pyAdd, ih]
      have hx : x + i + (m : ℚ) * i = x + ((m : ℚ) + 1) * i := by ring
      simp [hx]

end Snapfire

namespace Snapfire

/-- C9: stringly-typed CLI overrides break the scheduler.  For each of
the four protocols, a --set proto_timeout=v or --set proto_interval=v
override leaves the merged scheduler configuration holding the raw
string v (collector.py lines 302-318, 414-418).  A string timeout then
makes timeout + 0.5 raise TypeError on every tick, swallowed inside the
try block, so the collect invocation is never reached and no record is
ever enqueued, while the loop itself keeps running; a string interval
makes next_tick += interval raise TypeError outside the try block,
terminating the scheduler task on its first tick. -/
theorem cli_override_breaks_scheduler :
    (∀ proto ∈ ["icmp", "tcp", "udp", "http"], ∀ v : String,
      (mergeScheduler proto [(proto ++ "_timeout", v)]).timeout = .pstr v ∧
      (mergeScheduler proto [(proto ++ "_interval", v)]).interval = .pstr v) ∧
    (∀ (n : ℕ) (x i : ℚ) (s : String),
      schedulerTicks (.pfloat i) (.pstr s) n (.pfloat x) =
        .ok (.pfloat (x + n * i), 0)) ∧
    (∀ (n : ℕ) (x : ℚ) (s : String) (t : PyVal), 1 ≤ n →
      schedulerTicks (.pstr s) t n (.pfloat x) = .error "TypeError") := by
  refine ⟨?_, ?_, ?_⟩
  · intro proto hmem v
    fin_cases hmem <;>
      exact ⟨mergeScheduler_timeout_override _ _ _ (by decide),
        mergeScheduler_interval_override _ _ _ (by decide)⟩
  · intro n x i s
    exact schedulerTicks_str_timeout i s n x
  · intro n x s t hn
    cases n with
    | zero => cases hn
    | succ m => simp [schedulerTicks, tickTyped, pyAdd]

/-- Witness for cli_override_breaks_scheduler: the tcp protocol with
override value 3, and one tick with a string interval. -/
theorem cli_override_breaks_scheduler_witness :
    ("tcp" ∈ ["icmp", "tcp", "udp", "http"] ∧
      (mergeScheduler "tcp" [("tcp" ++ "_timeout", "3")]).timeout =
        .pstr "3") ∧
    (1 ≤ 1 ∧
      schedulerTicks (.pstr "3") (.pfloat 2) 1 (.pfloat 0) =
        .error "TypeError") :=
  ⟨⟨by decide, (cli_override_breaks_scheduler.1 "tcp" (by decide) "3").1⟩,
   ⟨by decide, cli_override_breaks_scheduler.2.2 1 0 "3" (.pfloat 2) (by decide)⟩⟩

end Snapfire

namespace Snapfire

/-- Batch Writer state for one protocol: the protocol name (the dict key
protocol_queues and buffers are indexed by), its asyncio result queue
(head is the item the next get_nowait returns) and its in-memory buffer
(collector.py lines 244-249). -/
structure PEntry where
  protocol : String
  queue : List Record
  buffer : List Record
deriving DecidableEq, Repr

/-- Embedding of one pass of the for-loop body for a single protocol
(collector.py lines 253-266): one get_nowait (QueueEmpty skips the rest
via continue), append of the item to the buffer, and, when the buffer
length has reached batch_size, one write of the whole buffer followed by
clearing it.  Returns the queue, the buffer and the writes this pass
appended to the sink (each write is the record list of one file.write
call). -/
def stepProto (batchSize : Nat) (queue buffer : List Record) :
    List Record × List Record × List (List Record) :=
  match queue with
  | [] => ([], buffer, [])
  | item :: rest =>
      let buf := buffer ++ [item]
      if batchSize ≤ buf.length then (rest, [], [buf])
      else (rest, buf, [])

/-- One iteration of the writer while-loop over all protocol entries in
dict order (collector.py lines 253-268, without the trailing
flush_interval sleep), accumulating the writes of the iteration. -/
def writerCycle (batchSize : Nat) :
    List PEntry → List PEntry × List (List Record)
  | [] => ([], [])
  | e :: es =>
      let s := stepProto batchSize e.queue e.buffer
      let r := writerCycle batchSize es
      ({ e with queue := s.1, buffer := s.2.1 } :: r.1, s.2.2 ++ r.2)

/-- Total number of records still queued across all protocols. -/
def totalQ (es : List PEntry) : Nat :=
  (es.map (fun e => e.queue.length)).sum

/-- The writer while-loop once the stop flag is set (collector.py line
252): it keeps iterating while any queue is non-empty.  Fuel bounds the
number of iterations; totalQ es iterations always suffice. -/
def writerDrain (batchSize : Nat) :
    Nat → List PEntry → List PEntry × List (List Record)
  | 0, es => (es, [])
  | fuel + 1, es =>
      if totalQ es = 0 then (es, [])
      else
        let c := writerCycle batchSize es
        let r := writerDrain batchSize fuel c.1
        (r.1, c.2 ++ r.2)

/-- The final flush after the loop exits (collector.py lines 270-273):
one write per non-empty buffer, in dict order. -/
def finalFlush : List PEntry → List (List Record)
  | [] => []
  | e :: es => (if e.buffer.isEmpty then [] else [e.buffer]) ++ finalFlush es

/-- Sink contents produced by the writer task when, after the stop flag
is set, it is allowed to run to completion: the drain-loop writes
followed by the final flush of the non-empty buffers (collector.py
lines 251-273). -/
def writerComplete (batchSize : Nat) (es : List PEntry) :
    List (List Record) :=
  let d := writerDrain batchSize (totalQ es) es
  d.2 ++ finalFlush d.1

/-- Sink contents produced by the run_measurements shutdown path
(collector.py lines 387-401): after the stop flag is set the writer
keeps draining; q.join() returns the moment the last queued item has
received task_done, which happens before the writer re-checks the loop
condition, and the writer task is then cancelled while it awaits its
flush_interval sleep inside the loop body, so the final flush of lines
270-273 never executes. -/
def writerCancelled (batchSize : Nat) (es : List PEntry) :
    List (List Record) :=
  (writerDrain batchSize (totalQ es) es).2

/-- The subsequence of records of one protocol in the sink, in the order
the writes appended them. -/
def sinkFor (p : String) (writes : List (List Record)) : List Record :=
  writes.flatten.filter (fun r => r.protocol == p)

/-- The records of protocol p still pending in the writer state, in the
order the writer will emit them: for each protocol-p entry, its buffer
contents followed by its queued records. -/
def pendingFor (p : String) : List PEntry → List Record
  | [] => []
  | e :: es =>
      (if e.protocol = p then e.buffer ++ e.queue else []) ++ pendingFor p es

/-- Well-formedness of one writer entry: every record routed through a
protocol entry carries that protocol (collector.py line 191: each
scheduler enqueues only records tagged with its own protocol into its
own queue). -/
def entryWf (e : PEntry) : Prop :=
  (∀ r ∈ e.queue, r.protocol = e.protocol) ∧
  (∀ r ∈ e.buffer, r.protocol = e.protocol)

instance (e : PEntry) : Decidable (entryWf e) := by
  unfold entryWf; infer_instance

/-- The entry part of one stepProto pass. -/
def stepE (batchSize : Nat) (e : PEntry) : PEntry :=
  { e with
    queue := (stepProto batchSize e.queue e.buffer).1,
    buffer := (stepProto batchSize e.queue e.buffer).2.1 }

/-- The writes part of one stepProto pass. -/
def stepW (batchSize : Nat) (e : PEntry) : List (List Record) :=
  (stepProto batchSize e.queue e.buffer).2.2

end Snapfire

namespace Snapfire

lemma stepProto_queue (bs : Nat) (q buf : List Record) :
    (stepProto bs q buf).1 = q.tail := by
  cases q with
  | nil => rfl
  | cons item rest =>
      simp only [stepProto]
      split <;> simp

lemma stepProto_content (bs : Nat) (q buf : List Record) :
    ((stepProto bs q buf).2.2).flatten ++ (stepProto bs q buf).2.1 ++
      (stepProto bs q buf).1 = buf ++ q := by
  cases q with
  | nil => simp [stepProto]
  | cons item rest =>
      simp only [stepProto]
      split <;> simp

lemma stepProto_mem (bs : Nat) (q buf : List Record) (r : Record)
    (h : r ∈ ((stepProto bs q buf).2.2).flatten ∨
      r ∈ (stepProto bs q buf).2.1 ∨ r ∈ (stepProto bs q buf).1) :
    r ∈ buf ++ q := by
  rw [← stepProto_content bs q buf]
  simp only [List.mem_append]
  tauto

lemma writerCycle_cons (bs : Nat) (e : PEntry) (es : List PEntry) :
    writerCycle bs (e :: es) =
      (stepE bs e :: (writerCycle bs es).1,
        stepW bs e ++ (writerCycle bs es).2) := rfl

lemma writerCycle_eq (bs : Nat) (es : List PEntry) :
    writerCycle bs es = (es.map (stepE bs), (es.map (stepW bs)).flatten) := by
  induction es with
  | nil => rfl
  | cons e es ih => rw [writerCycle_cons, ih]; simp

lemma stepE_protocol (bs : Nat) (e : PEntry) :
    (stepE bs e).protocol = e.protocol := rfl

lemma stepE_queue (bs : Nat) (e : PEntry) :
    (stepE bs e).queue = (stepProto bs e.queue e.buffer).1 := rfl

lemma stepE_buffer (bs : Nat) (e : PEntry) :
    (stepE bs e).buffer = (stepProto bs e.queue e.buffer).2.1 := rfl

lemma stepE_wf (bs : Nat) (e : PEntry) (h : entryWf e) :
    entryWf (stepE bs e) := by
  obtain ⟨hq, hb⟩ := h
  have key : ∀ r, r ∈ e.buffer ++ e.queue → r.protocol = e.protocol := by
    intro r hr
    rcases List.mem_append.mp hr with h1 | h2
    · exact hb r h1
    · exact hq r h2
  refine ⟨?_, ?_⟩ <;> intro r hr
  · exact key r (stepProto_mem bs e.queue e.buffer r (Or.inr (Or.inr hr)))
  · exact key r (stepProto_mem bs e.queue e.buffer r (Or.inr (Or.inl hr)))

lemma stepW_wf (bs : Nat) (e : PEntry) (h : entryWf e) :
    ∀ r ∈ (stepW bs e).flatten, r.protocol = e.protocol := by
  obtain ⟨hq, hb⟩ := h
  intro r hr
  have hm : r ∈ e.buffer ++ e.queue :=
    stepProto_mem bs e.queue e.buffer r (Or.inl hr)
  rcases List.mem_append.mp hm with h1 | h2
  · exact hb r h1
  · exact hq r h2

lemma sinkFor_append (p : String) (a b : List (List Record)) :
    sinkFor p (a ++ b) = sinkFor p a ++ sinkFor p b := by
  simp [sinkFor]

lemma filter_protocol_eq_self (p : String) (l : List Record)
    (h : ∀ r ∈ l, r.protocol = p) :
    l.filter (fun r => r.protocol == p) = l := by
  rw [List.filter_eq_self]
  intro a ha
  simp [h a ha]

lemma filter_protocol_eq_nil (p : String) (l : List Record)
    (h : ∀ r ∈ l, r.protocol ≠ p) :
    l.filter (fun r => r.protocol == p) = [] := by
  rw [List.filter_eq_nil_iff]
  intro a ha
  simp [h a ha]

lemma pendingFor_nil_of_absent (p : String) : ∀ es : List PEntry,
    (∀ e ∈ es, e.protocol ≠ p) → pendingFor p es = [] := by
  intro es
  induction es with
  | nil => intro _; rfl
  | cons e es ih =>
      intro h
      have he := h e (by simp)
      simp only [pendingFor, if_neg he, List.nil_append]
      exact ih (fun x hx => h x (by simp [hx]))

lemma sinkFor_stepW_nil_of_absent (bs : Nat) (p : String) (es : List PEntry)
    (hwf : ∀ e ∈ es, entryWf e) (habs : ∀ e ∈ es, e.protocol ≠ p) :
    sinkFor p ((es.map (stepW bs)).flatten) = [] := by
  unfold sinkFor
  rw [List.filter_eq_nil_iff]
  intro r hr
  rw [List.mem_flatten] at hr
  obtain ⟨l, hl, hrl⟩ := hr
  rw [List.mem_flatten] at hl
  obtain ⟨w, hw, hlw⟩ := hl
  obtain ⟨e, he, rfl⟩ := List.mem_map.mp hw
  have hflat : r ∈ (stepW bs e).flatten := List.mem_flatten.mpr ⟨l, hlw, hrl⟩
  have hproto := stepW_wf bs e (hwf e he) r hflat
  simp only [hproto, beq_iff_eq]
  exact habs e he

end Snapfire

namespace Snapfire

lemma totalQ_cons (e : PEntry) (es : List PEntry) :
    totalQ (e :: es) = e.queue.length + totalQ es := by
  simp [totalQ]

lemma stepE_queue_length (bs : Nat) (e : PEntry) :
    (stepE bs e).queue.length = e.queue.length - 1 := by
  rw [stepE_queue, stepProto_queue]
  exact List.length_tail e.queue

lemma totalQ_stepE_le (bs : Nat) : ∀ es : List PEntry,
    totalQ (es.map (stepE bs)) ≤ totalQ es := by
  intro es
  induction es with
  | nil => simp [totalQ]
  | cons e es ih =>
      rw [List.map_cons, totalQ_cons, totalQ_cons, stepE_queue_length]
      omega

lemma totalQ_stepE_lt (bs : Nat) : ∀ es : List PEntry, totalQ es ≠ 0 →
    totalQ (es.map (stepE bs)) < totalQ es := by
  intro es
  induction es with
  | nil => intro h; simp [totalQ] at h
  | cons e es ih =>
      intro h
      rw [List.map_cons, totalQ_cons, totalQ_cons, stepE_queue_length]
      rw [totalQ_cons] at h
      rcases Nat.eq_zero_or_pos e.queue.length with h0 | h0
      · have : totalQ es ≠ 0 := by omega
        have := ih this
        omega
      · have := totalQ_stepE_le bs es
        omega

lemma cycle_protocols (bs : Nat) (es : List PEntry) :
    ((writerCycle bs es).1).map PEntry.protocol = es.map PEntry.protocol := by
  rw [writerCycle_eq]
  simp only [List.map_map]
  apply List.map_congr_left
  intro e _
  rfl

lemma cycle_wf (bs : Nat) (es : List PEntry) (hwf : ∀ e ∈ es, entryWf e) :
    ∀ e ∈ (writerCycle bs es).1, entryWf e := by
  intro x hx
  rw [writerCycle_eq] at hx
  obtain ⟨e, he, rfl⟩ := List.mem_map.mp hx
  exact stepE_wf bs e (hwf e he)

lemma cycle_pending (bs : Nat) (p : String) : ∀ es : List PEntry,
    (∀ e ∈ es, entryWf e) → ((es.map PEntry.protocol).Nodup) →
    sinkFor p ((writerCycle bs es).2) ++ pendingFor p ((writerCycle bs es).1) =
      pendingFor p es := by
  intro es
  induction es with
  | nil => intro _ _; rfl
  | cons e es ih =>
      intro hwf hnd
      have he : entryWf e := hwf e (by simp)
      have hes : ∀ x ∈ es, entryWf x := fun x hx => hwf x (by simp [hx])
      rw [List.map_cons, List.nodup_cons] at hnd
      obtain ⟨hnotin, hnd2⟩ := hnd
      rw [writerCycle_cons]
      simp only [sinkFor_append, pendingFor, stepE_protocol]
      by_cases hp : e.protocol = p
      · have habs : ∀ x ∈ es, x.protocol ≠ p := by
          intro x hx hxp
          apply hnotin
          rw [hp, ← hxp]
          exact List.mem_map_of_mem PEntry.protocol hx
        have hws : sinkFor p ((writerCycle bs es).2) = [] := by
          rw [writerCycle_eq]
          exact sinkFor_stepW_nil_of_absent bs p es hes habs
        have hpend2 : pendingFor p ((writerCycle bs es).1) = [] := by
          apply pendingFor_nil_of_absent
          intro x hx
          rw [writerCycle_eq] at hx
          obtain ⟨y, hy, rfl⟩ := List.mem_map.mp hx
          rw [stepE_protocol]
          exact habs y hy
        have hpend : pendingFor p es = [] := pendingFor_nil_of_absent p es habs
        have hself : sinkFor p (stepW bs e) = (stepW bs e).flatten := by
          unfold sinkFor
          exact filter_protocol_eq_self p _
            (fun r hr => by rw [stepW_wf bs e he r hr]; exact hp)
        rw [hws, hpend2, hpend, hself, if_pos hp, if_pos hp]
        have := stepProto_content bs e.queue e.buffer
        rw [stepE_buffer, stepE_queue]
        simp only [List.append_nil]
        rw [← List.append_assoc]
        exact this
      · have hw0 : sinkFor p (stepW bs e) = [] := by
          unfold sinkFor
          exact filter_protocol_eq_nil p _
            (fun r hr => by rw [stepW_wf bs e he r hr]; exact hp)
        rw [hw0, if_neg hp, if_neg hp]
        simp only [List.nil_append]
        exact ih hes hnd2

lemma drain_pending (bs : Nat) (p : String) : ∀ (fuel : Nat) (es : List PEntry),
    (∀ e ∈ es, entryWf e) → ((es.map PEntry.protocol).Nodup) →
    sinkFor p ((writerDrain bs fuel es).2) ++
      pendingFor p ((writerDrain bs fuel es).1) = pendingFor p es := by
  intro fuel
  induction fuel with
  | zero => intro es _ _; simp [writerDrain, sinkFor]
  | succ n ih =>
      intro es hwf hnd
      by_cases h0 : totalQ es = 0
      · simp [writerDrain, h0, sinkFor]
      · have hwf2 := cycle_wf bs es hwf
        have hnd2 : (((writerCycle bs es).1).map PEntry.protocol).Nodup := by
          rw [cycle_protocols]; exact hnd
        have hrec := ih ((writerCycle bs es).1) hwf2 hnd2
        have hcyc := cycle_pending bs p es hwf hnd
        simp only [writerDrain, h0, if_false, ite_false]
        rw [sinkFor_append, List.append_assoc, hrec]
        exact hcyc

lemma drain_wf (bs : Nat) : ∀ (fuel : Nat) (es : List PEntry),
    (∀ e ∈ es, entryWf e) → ∀ e ∈ (writerDrain bs fuel es).1, entryWf e := by
  intro fuel
  induction fuel with
  | zero => intro es h; simpa [writerDrain] using h
  | succ n ih =>
      intro es h
      by_cases h0 : totalQ es = 0
      · simpa [writerDrain, h0] using h
      · intro x hx
        refine ih ((writerCycle bs es).1) (cycle_wf bs es h) x ?_
        simpa [writerDrain, h0] using hx

lemma drain_empties (bs : Nat) : ∀ (fuel : Nat) (es : List PEntry),
    totalQ es ≤ fuel → totalQ ((writerDrain bs fuel es).1) = 0 := by
  intro fuel
  induction fuel with
  | zero =>
      intro es h
      have h0 : totalQ es = 0 := Nat.le_zero.mp h
      simpa [writerDrain] using h0
  | succ n ih =>
      intro es h
      by_cases h0 : totalQ es = 0
      · simp [writerDrain, h0]
      · have hlt : totalQ ((writerCycle bs es).1) < totalQ es := by
          rw [writerCycle_eq]
          exact totalQ_stepE_lt bs es h0
        have hle : totalQ ((writerCycle bs es).1) ≤ n := by omega
        have := ih ((writerCycle bs es).1) hle
        simpa [writerDrain, h0] using this

lemma totalQ_zero_queues (es : List PEntry) (h : totalQ es = 0) :
    ∀ e ∈ es, e.queue = [] := by
  intro e he
  unfold totalQ at h
  have hz := List.sum_eq_zero_iff.mp h (e.queue.length)
    (List.mem_map_of_mem _ he)
  exact List.length_eq_zero.mp hz

lemma finalFlush_pending (p : String) : ∀ es : List PEntry,
    (∀ e ∈ es, entryWf e) → (∀ e ∈ es, e.queue = []) →
    sinkFor p (finalFlush es) = pendingFor p es := by
  intro es
  induction es with
  | nil => intro _ _; rfl
  | cons e es ih =>
      intro hwf hq
      have he : entryWf e := hwf e (by simp)
      have heq : e.queue = [] := hq e (by simp)
      have hes : ∀ x ∈ es, entryWf x := fun x hx => hwf x (by simp [hx])
      have hqs : ∀ x ∈ es, x.queue = [] := fun x hx => hq x (by simp [hx])
      simp only [finalFlush, pendingFor, sinkFor_append, ih hes hqs, heq,
        List.append_nil]
      by_cases hb : e.buffer.isEmpty
      · have hbnil : e.buffer = [] := List.isEmpty_iff.mp hb
        simp [hb, hbnil, sinkFor]
      · rw [if_neg hb]
        by_cases hp : e.protocol = p
        · have hself : sinkFor p [e.buffer] = e.buffer := by
            unfold sinkFor
            simp only [List.flatten_cons, List.flatten_nil, List.append_nil]
            exact filter_protocol_eq_self p _
              (fun r hr => by rw [he.2 r hr]; exact hp)
          rw [hself, if_pos hp]
        · have hnil : sinkFor p [e.buffer] = [] := by
            unfold sinkFor
            simp only [List.flatten_cons, List.flatten_nil, List.append_nil]
            exact filter_protocol_eq_nil p _
              (fun r hr => by rw [he.2 r hr]; exact hp)
          rw [hnil, if_neg hp]

end Snapfire

namespace Snapfire

/-- C7: per-protocol FIFO order preservation (collector.py lines 176-191
and 253-266).  Each scheduler enqueues records in probe-completion order
by appending to its own FIFO queue; under the well-formedness that every
entry holds only records of its own protocol and the protocols are
pairwise distinct (the dict keys of protocol_queues), the protocol-p
subsequence of the sink produced by the writer equals exactly the
protocol-p pending content (buffer accumulation order followed by queue
order): records of one protocol are written to the sink in enqueue
order, each exactly once.  No such equation constrains the interleaving
across protocols. -/
theorem writer_fifo_per_protocol (bs : Nat) (es : List PEntry) (p : String)
    (hwf : ∀ e ∈ es, entryWf e)
    (hnd : (es.map PEntry.protocol).Nodup) :
    sinkFor p (writerComplete bs es) = pendingFor p es := by
  have hdrain := drain_pending bs p (totalQ es) es hwf hnd
  have hempty := drain_empties bs (totalQ es) es (le_refl _)
  have hwf2 : ∀ e ∈ (writerDrain bs (totalQ es) es).1, entryWf e :=
    drain_wf bs (totalQ es) es hwf
  have hq := totalQ_zero_queues _ hempty
  show sinkFor p ((writerDrain bs (totalQ es) es).2 ++
    finalFlush (writerDrain bs (totalQ es) es).1) = pendingFor p es
  rw [sinkFor_append, finalFlush_pending p _ hwf2 hq]
  exact hdrain

/-- Witness for writer_fifo_per_protocol: one icmp entry whose queue
holds two records, flushed in order by the final flush. -/
theorem writer_fifo_per_protocol_witness :
    (∀ e ∈ [PEntry.mk "icmp" [Record.mk "icmp" 0, Record.mk "icmp" 1] []],
      entryWf e) ∧
    (([PEntry.mk "icmp" [Record.mk "icmp" 0, Record.mk "icmp" 1] []].map
      PEntry.protocol).Nodup) ∧
    sinkFor "icmp" (writerComplete 5
        [PEntry.mk "icmp" [Record.mk "icmp" 0, Record.mk "icmp" 1] []]) =
      pendingFor "icmp"
        [PEntry.mk "icmp" [Record.mk "icmp" 0, Record.mk "icmp" 1] []] :=
  ⟨by decide, by decide,
    writer_fifo_per_protocol 5 _ "icmp" (by decide) (by decide)⟩

/-- C1: the run_measurements shutdown path loses a sub-batch residual
record.  With the stop flag set and a single icmp record enqueued
(batch_size 5), the writer function itself, if allowed to run to
completion, would emit the record in its final flush (second conjunct);
but run_measurements (collector.py lines 387-401) awaits q.join(), which
returns as soon as the record has been moved into the buffer, and then
cancels the writer task while it awaits the flush_interval sleep inside
the loop body, so the final flush of lines 270-273 never runs and the
sink receives nothing (first conjunct): the record enqueued before the
stop signal is never written. -/
theorem shutdown_cancel_drops_record :
    writerCancelled 5 [PEntry.mk "icmp" [Record.mk "icmp" 0] []] = [] ∧
    writerComplete 5 [PEntry.mk "icmp" [Record.mk "icmp" 0] []] =
      [[Record.mk "icmp" 0]] := by
  constructor <;> rfl

/-- C3 counterexample: a buffer holding exactly one record, with empty
queues, survives a full writer iteration (one flush_interval elapsing
with no new arrivals) completely unchanged, and the iteration performs
no write at all: no time-based flush exists in the loop of collector.py
lines 252-268. -/
theorem time_flush_counterexample :
    writerCycle 5 [PEntry.mk "icmp" [] [Record.mk "icmp" 0]] =
      ([PEntry.mk "icmp" [] [Record.mk "icmp" 0]], []) := by
  rfl

/-- C3 amended: flush_interval is only the sleep between writer
iterations.  A writer iteration in which every queue is empty writes
nothing and leaves every buffer unchanged, however many such intervals
elapse; a non-empty buffer below batch_size is flushed only by the final
flush after the drain loop exits (second conjunct: a one-record buffer
is emitted exactly by that final flush). -/
theorem writer_flush_only_size_or_final :
    (∀ (bs : Nat) (es : List PEntry), (∀ e ∈ es, e.queue = []) →
      writerCycle bs es = (es, [])) ∧
    (∀ (p : String) (r : Record),
      writerComplete 5 [PEntry.mk p [] [r]] = [[r]]) := by
  constructor
  · intro bs es h
    induction es with
    | nil => rfl
    | cons e es ih =>
        have he : e.queue = [] := h e (by simp)
        have hes : ∀ x ∈ es, x.queue = [] := fun x hx => h x (by simp [hx])
        rw [writerCycle_cons, ih hes]
        obtain ⟨pr, q, b⟩ := e
        simp only at he
        subst he
        simp [stepE, stepW, stepProto]
  · intro p r
    rfl

/-- Witness for writer_flush_only_size_or_final: a single udp entry with
an empty queue is left untouched by one writer iteration. -/
theorem writer_flush_only_size_or_final_witness :
    (∀ e ∈ [PEntry.mk "udp" [] [Record.mk "udp" 7]], PEntry.queue e = []) ∧
    writerCycle 5 [PEntry.mk "udp" [] [Record.mk "udp" 7]] =
      ([PEntry.mk "udp" [] [Record.mk "udp" 7]], []) :=
  ⟨by decide, writer_flush_only_size_or_final.1 5 _ (by decide)⟩

/-- C4 counterexample: with batch_size 5 and six records enqueued to one
protocol queue before the next writer iteration, that iteration dequeues
only the head record (five records remain queued), and performs no
flush; the claimed all-available drain and immediate flush of five do
not happen in that cycle (collector.py lines 253-266 call get_nowait
once per protocol per iteration). -/
theorem drain_all_counterexample :
    writerCycle 5 [PEntry.mk "icmp"
        [Record.mk "icmp" 0, Record.mk "icmp" 1, Record.mk "icmp" 2,
         Record.mk "icmp" 3, Record.mk "icmp" 4, Record.mk "icmp" 5] []] =
      ([PEntry.mk "icmp"
          [Record.mk "icmp" 1, Record.mk "icmp" 2, Record.mk "icmp" 3,
           Record.mk "icmp" 4, Record.mk "icmp" 5] [Record.mk "icmp" 0]],
        []) := by
  rfl

/-- C4 amended: each writer iteration dequeues at most one item per
protocol queue, namely its head (first conjunct); a buffer that reaches
batch_size upon the append is flushed as one write and cleared (second
conjunct); consequently six records enqueued with batch_size 5 are
drained over six writer iterations, producing exactly one flush of the
first five records and a residual buffer holding the sixth (third
conjunct). -/
theorem writer_single_dequeue_per_cycle :
    (∀ (bs : Nat) (es : List PEntry),
      ((writerCycle bs es).1).map PEntry.queue =
        es.map (fun e => e.queue.tail)) ∧
    (∀ (bs : Nat) (r : Record) (q buf : List Record),
      buf.length + 1 = bs →
      stepProto bs (r :: q) buf = (q, [], [buf ++ [r]])) ∧
    (∀ (p : String) (a b c d e f : Record),
      writerDrain 5 6 [PEntry.mk p [a, b, c, d, e, f] []] =
        ([PEntry.mk p [] [f]], [[a, b, c, d, e]])) := by
  refine ⟨?_, ?_, ?_⟩
  · intro bs es
    rw [writerCycle_eq]
    simp only [List.map_map]
    apply List.map_congr_left
    intro e _
    simp only [Function.comp_apply]
    rw [stepE_queue, stepProto_queue]
  · intro bs r q buf h
    subst h
    simp [stepProto]
  · intro p a b c d e f
    simp [writerDrain, writerCycle, stepProto, totalQ]

/-- Witness for writer_single_dequeue_per_cycle: a buffer of four
records with batch_size 5 flushes on the fifth append. -/
theorem writer_single_dequeue_per_cycle_witness :
    ([Record.mk "tcp" 0, Record.mk "tcp" 1, Record.mk "tcp" 2,
        Record.mk "tcp" 3].length + 1 = 5) ∧
    stepProto 5 [Record.mk "tcp" 4]
        [Record.mk "tcp" 0, Record.mk "tcp" 1, Record.mk "tcp" 2,
         Record.mk "tcp" 3] =
      ([], [],
        [[Record.mk "tcp" 0, Record.mk "tcp" 1, Record.mk "tcp" 2,
          Record.mk "tcp" 3, Record.mk "tcp" 4]]) :=
  ⟨by decide,
    writer_single_dequeue_per_cycle.2.1 5 (Record.mk "tcp" 4) []
      [Record.mk "tcp" 0, Record.mk "tcp" 1, Record.mk "tcp" 2,
       Record.mk "tcp" 3] (by decide)⟩

end Snapfire

namespace Snapfire

/-- The handler that install_signal_handlers registers for both SIGINT
and SIGTERM (collector.py lines 276-282): it calls event.set() on the
process-wide stop event, whose observable state is its Boolean flag. -/
def signalHandler (_flag : Bool) : Bool := true

/-- Delivery of a number of interrupt or terminate signals in sequence,
each running the installed handler on the current flag state. -/
def deliverSignals : Nat → Bool → Bool
  | 0, flag => flag
  | n + 1, flag => deliverSignals n (signalHandler flag)

lemma deliverSignals_true : ∀ (n : Nat) (flag : Bool),
    deliverSignals (n + 1) flag = true := by
  intro n
  induction n with
  | zero => intro flag; rfl
  | succ m ih => intro flag; exact ih (signalHandler flag)

/-- C10: stop-flag idempotence (collector.py lines 276-282).  The first
received signal sets the flag (second conjunct); a further signal on an
already-set flag is a no-op (third conjunct); and the observable state
after any n (at least 1) signals equals the state after exactly one
signal (first conjunct). -/
theorem stop_flag_idempotent (n : Nat) (flag : Bool) (h : 1 ≤ n) :
    deliverSignals n flag = deliverSignals 1 flag ∧
    deliverSignals 1 false = true ∧
    signalHandler true = true := by
  obtain ⟨m, rfl⟩ := Nat.exists_eq_add_of_le h
  refine ⟨?_, rfl, rfl⟩
  have h1 : deliverSignals (1 + m) flag = true := by
    rw [Nat.add_comm]
    exact deliverSignals_true m flag
  rw [h1]
  exact (deliverSignals_true 0 flag).symm

/-- Witness for stop_flag_idempotent: three delivered signals starting
from an unset flag. -/
theorem stop_flag_idempotent_witness :
    1 ≤ 3 ∧ deliverSignals 3 false = deliverSignals 1 false :=
  ⟨by decide, (stop_flag_idempotent 3 false (by decide)).1⟩

end Snapfire
